import Mathlib

/-!
# Verification of the Audealize parametric reverberator

Shallow embedding of `src/JUCE Modules/audealize_module/effects/Reverb.h`
(class `Audealize::Reverb`).  Audio samples are idealized as real numbers.

The delay-line primitive (`dsp::simple_delay`, from the Calf DSP library),
the damping filter (`NChannelFilter`) and the prime helper (`prevPrime`)
are not part of the given sources; they are modelled from the
specification (spec sections 4.1, 4.2 and 4.3), as marked on each
definition below.
-/

namespace Audealize

noncomputable section

/-- Capacity of every delay line: the source declares
`vector<simple_delay<9600, float>>`. -/
def CAP : ℕ := 9600

/-- The `ALLPASSGAIN` macro of the source (`0.1f`). -/
def ALLPASSGAIN : ℝ := 0.1

/-- The `MINDELAY` macro of the source (`0.01f`). -/
def MINDELAY : ℝ := 0.01

/-- The `PI` macro of the source: the decimal constant `3.1415926535897f`
(an approximation of the mathematical constant). -/
def PIc : ℝ := 3.1415926535897

/-- C/C++ float-to-integer conversion for the nonnegative delay lengths
used by the engine: truncation toward zero, i.e. the floor for
nonnegative arguments. -/
def natTrunc (x : ℝ) : ℕ := Int.toNat ⌊x⌋

/-- Modelled from the spec (section 4.1 DelayLine): a fixed-capacity
circular sample buffer plus a write cursor.  `buf` is read modulo `CAP`;
`pos` is the index of the next write. -/
structure SimpleDelay where
  buf : ℕ → ℝ
  pos : ℕ

namespace SimpleDelay

/-- Modelled from the spec: returns the sample written `n` steps before
the next write, so `readDelay 1` is the most recently written sample. -/
def readDelay (dl : SimpleDelay) (n : ℕ) : ℝ :=
  dl.buf ((dl.pos % CAP + (CAP - n % CAP)) % CAP)

/-- Modelled from the spec: append one sample, advancing the cursor
modulo capacity. -/
def write (dl : SimpleDelay) (v : ℝ) : SimpleDelay :=
  { buf := fun i => if i = dl.pos % CAP then v else dl.buf i
    pos := (dl.pos + 1) % CAP }

/-- Modelled from the spec: plain delay mode (`process` in the source):
read the sample delayed by `len` samples (length truncated to an
integer), then write the input; returns the delayed sample. -/
def process (dl : SimpleDelay) (x : ℝ) (len : ℝ) : ℝ × SimpleDelay :=
  (dl.readDelay (natTrunc len), dl.write x)

/-- Modelled from the spec: the canonical feedback comb operation
(`process_comb`): read the delayed sample, form
`output = input + gain * delayed`, write `output`, return `output`. -/
def process_comb (dl : SimpleDelay) (x : ℝ) (len : ℝ) (g : ℝ) : ℝ × SimpleDelay :=
  let out := x + g * dl.readDelay (natTrunc len)
  (out, dl.write out)

/-- Modelled from the spec: the Schroeder allpass operation
(`process_allpass_comb`): with `delayed` the delayed buffer sample, the
value `w = input + gain * delayed` is written and
`delayed - gain * w = -gain*input + (1 - gain^2)*delayed` is returned,
an all-pass transfer function. -/
def process_allpass_comb (dl : SimpleDelay) (x : ℝ) (len : ℝ) (g : ℝ) : ℝ × SimpleDelay :=
  let delayed := dl.readDelay (natTrunc len)
  let w := x + g * delayed
  (delayed - g * w, dl.write w)

end SimpleDelay

/-- A delay line in its initial condition: zero-filled buffer, cursor at
the start. -/
def zeroDelay : SimpleDelay := ⟨fun _ => 0, 0⟩

/-- Modelled from the spec (section 4.2 DampingFilter): a two-channel
low-pass biquad filter bank; the two channels share the cutoff
frequency and sample rate (hence the coefficients) but have independent
per-channel history `z1`, `z2` (transposed direct form II). -/
structure NChannelFilter where
  freq : ℝ
  sampleRate : ℝ
  z1 : Fin 2 → ℝ
  z2 : Fin 2 → ℝ

/-- Modelled from the spec: warped frequency of the standard digital
low-pass biquad design (with Q = 1, as in the engine's constructor).
No claim depends on the particular coefficient formulas. -/
def lpK (fc r : ℝ) : ℝ := Real.tan (Real.pi * fc / r)

/-- Modelled from the spec: normalization constant of the low-pass
biquad design. -/
def lpNorm (fc r : ℝ) : ℝ := 1 / (1 + lpK fc r + lpK fc r ^ 2)

/-- Modelled from the spec: feedforward coefficient `a0`. -/
def lpA0 (fc r : ℝ) : ℝ := lpK fc r ^ 2 * lpNorm fc r

/-- Modelled from the spec: feedforward coefficient `a1`. -/
def lpA1 (fc r : ℝ) : ℝ := 2 * lpA0 fc r

/-- Modelled from the spec: feedforward coefficient `a2`. -/
def lpA2 (fc r : ℝ) : ℝ := lpA0 fc r

/-- Modelled from the spec: feedback coefficient `b1`. -/
def lpB1 (fc r : ℝ) : ℝ := 2 * (lpK fc r ^ 2 - 1) * lpNorm fc r

/-- Modelled from the spec: feedback coefficient `b2`. -/
def lpB2 (fc r : ℝ) : ℝ := (1 - lpK fc r + lpK fc r ^ 2) * lpNorm fc r

namespace NChannelFilter

/-- Modelled from the spec: update the shared cutoff; coefficients are
functions of `freq`/`sampleRate`, so recomputation is implicit. -/
def setFreq (φ : NChannelFilter) (fc : ℝ) : NChannelFilter := { φ with freq := fc }

/-- Modelled from the spec: update the shared sample rate. -/
def setSampleRate (φ : NChannelFilter) (r : ℝ) : NChannelFilter := { φ with sampleRate := r }

/-- Modelled from the spec: apply the per-channel low-pass, maintaining
that channel's independent history; the other channel's state is
untouched. -/
def processSample (φ : NChannelFilter) (x : ℝ) (ch : Fin 2) : ℝ × NChannelFilter :=
  let out := x * lpA0 φ.freq φ.sampleRate + φ.z1 ch
  let z1n := x * lpA1 φ.freq φ.sampleRate + φ.z2 ch - lpB1 φ.freq φ.sampleRate * out
  let z2n := x * lpA2 φ.freq φ.sampleRate - lpB2 φ.freq φ.sampleRate * out
  (out, { φ with z1 := Function.update φ.z1 ch z1n, z2 := Function.update φ.z2 ch z2n })

end NChannelFilter

/-- Modelled from the spec (section 4.3, largest-prime-not-exceeding):
`prevPrime N` is the greatest prime `≤ N` (0 when no prime exists),
computed by downward trial. -/
def prevPrime : ℕ → ℕ
  | 0 => 0
  | n + 1 => if Nat.Prime (n + 1) then n + 1 else prevPrime n

/-- The engine state: all fields of class `Audealize::Reverb`. -/
structure Reverb where
  d : ℝ
  g : ℝ
  m : ℝ
  f : ℝ
  E : ℝ
  wetdry : ℝ
  rt : ℝ
  gainclean : ℝ
  gainscale : ℝ
  gain : ℝ
  wet : ℝ
  dry : ℝ
  da : ℝ
  mSampleRate : ℝ
  mSample : Fin 2 → ℝ
  mCombDelay : Fin 6 → ℝ
  mCombGain : Fin 6 → ℝ
  mDelayVal : Fin 2 → ℝ
  mComb : Fin 6 → SimpleDelay
  mAllpass : Fin 2 → SimpleDelay
  mDelay : Fin 2 → SimpleDelay
  mLowpass : NChannelFilter

namespace Reverb

/-- `calc_rt`: `rt = d * log(.001) / log(g)` (natural logarithms). -/
def calc_rt (s : Reverb) : Reverb :=
  { s with rt := s.d * Real.log 0.001 / Real.log s.g }

/-- `set_d`: store `d`, recompute `rt`, then for each comb `i` set
`mCombDelay[i] = prevPrime(d*(15-i)/15*mSampleRate) / mSampleRate` and
`mCombGain[i] = 0.001 ^ (mCombDelay[i] / rt)`.  The float argument of
`prevPrime` is truncated by the C++ int conversion. -/
def set_d (s : Reverb) (dval : ℝ) : Reverb :=
  let s1 := calc_rt { s with d := dval }
  let cd : Fin 6 → ℝ := fun i =>
    (prevPrime (natTrunc (s1.d * ((15 - (i : ℕ) : ℕ) : ℝ) / 15 * s1.mSampleRate)) : ℝ) /
      s1.mSampleRate
  { s1 with
    mCombDelay := cd
    mCombGain := fun i => Real.rpow 0.001 (cd i / s1.rt) }

/-- `set_g`: store `g`, then rerun `set_d` with the current `d`. -/
def set_g (s : Reverb) (gval : ℝ) : Reverb :=
  set_d { s with g := gval } ({ s with g := gval }).d

/-- `set_m`: store `m`, then set the two spread delay lengths from
`da ± m/2` via `prevPrime`. -/
def set_m (s : Reverb) (mval : ℝ) : Reverb :=
  let s1 := { s with m := mval }
  { s1 with
    mDelayVal := fun ch =>
      if ch = 0 then
        (prevPrime (natTrunc ((s1.da + s1.m / 2) * s1.mSampleRate)) : ℝ) / s1.mSampleRate
      else
        (prevPrime (natTrunc ((s1.da - s1.m / 2) * s1.mSampleRate)) : ℝ) / s1.mSampleRate }

/-- `set_f`: store `f` and forward it to the damping filter. -/
def set_f (s : Reverb) (fval : ℝ) : Reverb :=
  let s1 := { s with f := fval }
  { s1 with mLowpass := s1.mLowpass.setFreq s1.f }

/-- `set_E`: with `totalGain = E + 1` and `g1 = 1/totalGain`, set
`gainclean = cos((1-g1)*.125*PI)`, `gain = cos(g1*.375*PI)` and
`gainscale = .5*.8/(gainclean+gain)`. -/
def set_E (s : Reverb) (Eval : ℝ) : Reverb :=
  let s1 := { s with E := Eval }
  let g1 := 1 / (s1.E + 1)
  let gc := Real.cos ((1 - g1) * 0.125 * PIc)
  let gn := Real.cos (g1 * 0.375 * PIc)
  { s1 with gainclean := gc, gain := gn, gainscale := 0.5 * 0.8 / (gc + gn) }

/-- `set_wetdry`: `wet = cos((1-wetdry)*.5*PI)`,
`dry = cos(wetdry*.5*PI)`. -/
def set_wetdry (s : Reverb) (wval : ℝ) : Reverb :=
  let s1 := { s with wetdry := wval }
  { s1 with
    wet := Real.cos ((1 - s1.wetdry) * 0.5 * PIc)
    dry := Real.cos (s1.wetdry * 0.5 * PIc) }

/-- `resetBuffs` of the source ranges over the three delay-line vectors
**by value** (`for (auto d : mComb) { d.reset(); }` and likewise for
`mAllpass` and `mDelay`): `reset()` is invoked on a copy of each
element, which is then discarded, so the engine's delay lines are not
modified.  The net effect on the engine state is the identity. -/
def resetBuffs (s : Reverb) : Reverb := s

/-- What the doc comment of `resetBuffs` ("Zero out all delay/filter
buffers") and the spec describe: every delay line zeroed and its cursor
rewound. -/
def resetBuffsIntended (s : Reverb) : Reverb :=
  { s with
    mComb := fun _ => zeroDelay
    mAllpass := fun _ => zeroDelay
    mDelay := fun _ => zeroDelay }

/-- `setSampleRate`: store the rate, propagate it to the damping
filter, rerun `set_m` and `set_d`, then call `resetBuffs`. -/
def setSampleRate (s : Reverb) (rate : ℝ) : Reverb :=
  let s1 := { s with mSampleRate := rate }
  let s2 := { s1 with mLowpass := s1.mLowpass.setSampleRate rate }
  resetBuffs (set_d (set_m s2 s2.m) (set_m s2 s2.m).d)

/-- `init`: store the rate, propagate it to the damping filter, apply
all six setters in source order, then call `resetBuffs`. -/
def init (s : Reverb) (dv gv mv fv Ev wdv rate : ℝ) : Reverb :=
  let s1 := { s with mSampleRate := rate }
  let s2 := { s1 with mLowpass := s1.mLowpass.setSampleRate rate }
  resetBuffs (set_wetdry (set_E (set_f (set_m (set_g (set_d s2 dv) gv) mv) fv) Ev) wdv)

/-- One iteration of the `for` loop of `processCombs`: process comb `i`
and store its updated delay line back. -/
def combStep (s : Reverb) (x : ℝ) (i : Fin 6) : ℝ × Reverb :=
  let r := (s.mComb i).process_comb x (s.mCombDelay i * s.mSampleRate) (s.mCombGain i)
  (r.1, { s with mComb := Function.update s.mComb i r.2 })

/-- `processCombs`: feed the same sample to the six combs in loop order,
summing their outputs. -/
def processCombs (s : Reverb) (x : ℝ) : ℝ × Reverb :=
  let r0 := combStep s x 0
  let r1 := combStep r0.2 x 1
  let r2 := combStep r1.2 x 2
  let r3 := combStep r2.2 x 3
  let r4 := combStep r3.2 x 4
  let r5 := combStep r4.2 x 5
  (r0.1 + r1.1 + r2.1 + r3.1 + r4.1 + r5.1, r5.2)

/-- `JUCE_UNDENORMALISE` flushes float denormals to zero; on idealized
real samples it is the identity. -/
def JUCE_UNDENORMALISE (x : ℝ) : ℝ := x

/-- The body of the per-sample loop of `processMonoBlock`: returns the
output sample and the updated engine.  The parameter and coefficient
fields (`wet`, `dry`, `gain*`, `mDelayVal`, `mSampleRate`) are not
modified by processing, so they are read from the incoming state; only
the delay lines and the damping filter are threaded. -/
def processMonoSample (s : Reverb) (x : ℝ) : ℝ × Reverb :=
  let rc := processCombs s (x * s.wet)
  let ra := (s.mAllpass 0).process_allpass_comb rc.1 (s.mDelayVal 0 * s.mSampleRate) ALLPASSGAIN
  let rl := s.mLowpass.processSample ra.1 0
  let sampRev := rl.1 * s.gain
  let rd := (s.mDelay 0).process x (MINDELAY * s.mSampleRate)
  let samp := s.wet * rd.1 * s.gainclean
  let samp2 := (samp + sampRev) * 0.5 * s.gainscale
  (JUCE_UNDENORMALISE (samp2 + x * s.dry),
    { rc.2 with
      mAllpass := Function.update s.mAllpass 0 ra.2
      mLowpass := rl.2
      mDelay := Function.update s.mDelay 0 rd.2 })

/-- `processMonoBlock`: the per-sample loop over a block. -/
def processMonoBlock (s : Reverb) : List ℝ → List ℝ × Reverb
  | [] => ([], s)
  | x :: xs =>
    let r := processMonoSample s x
    let rest := processMonoBlock r.2 xs
    (r.1 :: rest.1, rest.2)

set_option maxHeartbeats 1000000 in
/-- The body of the per-sample loop of `processStereoBlock`: the two
inputs are summed, halved and scaled by `wet` into the single shared
comb network; the allpass, the damping-filter channel and the
phase-compensation delay are then applied per channel.  Both channels'
phase-compensation delays use the fixed `MINDELAY` length; the spread
lengths `mDelayVal` are used by the allpass filters only. -/
def processStereoSample (s : Reverb) (xL xR : ℝ) : (ℝ × ℝ) × Reverb :=
  let rc := processCombs s ((xL + xR) * 0.5 * s.wet)
  let raL := (s.mAllpass 0).process_allpass_comb rc.1 (s.mDelayVal 0 * s.mSampleRate) ALLPASSGAIN
  let raR := (s.mAllpass 1).process_allpass_comb rc.1 (s.mDelayVal 1 * s.mSampleRate) ALLPASSGAIN
  let rlL := s.mLowpass.processSample raL.1 0
  let rlR := rlL.2.processSample raR.1 1
  let sampRevL := rlL.1 * s.gain
  let sampRevR := rlR.1 * s.gain
  let rdL := (s.mDelay 0).process xL (MINDELAY * s.mSampleRate)
  let rdR := (s.mDelay 1).process xR (MINDELAY * s.mSampleRate)
  let sampL := s.wet * rdL.1 * s.gainclean
  let sampR := s.wet * rdR.1 * s.gainclean
  let outL := (sampL + sampRevL) * 0.5 * s.gainscale + xL * s.dry
  let outR := (sampR + sampRevR) * 0.5 * s.gainscale + xR * s.dry
  ((JUCE_UNDENORMALISE outL, JUCE_UNDENORMALISE outR),
    { rc.2 with
      mAllpass := Function.update (Function.update s.mAllpass 0 raL.2) 1 raR.2
      mLowpass := rlR.2
      mDelay := Function.update (Function.update s.mDelay 0 rdL.2) 1 rdR.2 })

/-- `processStereoBlock`: the per-sample loop over two equal-length
blocks. -/
def processStereoBlock (s : Reverb) : List ℝ → List ℝ → (List ℝ × List ℝ) × Reverb
  | x :: xs, y :: ys =>
    let r := processStereoSample s x y
    let rest := processStereoBlock r.2 xs ys
    ((r.1.1 :: rest.1.1, r.1.2 :: rest.1.2), rest.2)
  | _, _ => (([], []), s)

/-- The per-sample loop of the stereo claim of the specification, which
differs from `processStereoSample` in exactly one place: the
phase-compensation delay line of each channel is read at that channel's
own spread-delay length `mDelayVal[ch]` instead of the fixed
`MINDELAY`. -/
def processStereoSampleSpreadComp (s : Reverb) (xL xR : ℝ) : (ℝ × ℝ) × Reverb :=
  let rc := processCombs s ((xL + xR) * 0.5 * s.wet)
  let raL := (s.mAllpass 0).process_allpass_comb rc.1 (s.mDelayVal 0 * s.mSampleRate) ALLPASSGAIN
  let raR := (s.mAllpass 1).process_allpass_comb rc.1 (s.mDelayVal 1 * s.mSampleRate) ALLPASSGAIN
  let rlL := s.mLowpass.processSample raL.1 0
  let rlR := rlL.2.processSample raR.1 1
  let sampRevL := rlL.1 * s.gain
  let sampRevR := rlR.1 * s.gain
  let rdL := (s.mDelay 0).process xL (s.mDelayVal 0 * s.mSampleRate)
  let rdR := (s.mDelay 1).process xR (s.mDelayVal 1 * s.mSampleRate)
  let sampL := s.wet * rdL.1 * s.gainclean
  let sampR := s.wet * rdR.1 * s.gainclean
  let outL := (sampL + sampRevL) * 0.5 * s.gainscale + xL * s.dry
  let outR := (sampR + sampRevR) * 0.5 * s.gainscale + xR * s.dry
  ((JUCE_UNDENORMALISE outL, JUCE_UNDENORMALISE outR),
    { rc.2 with
      mAllpass := Function.update (Function.update s.mAllpass 0 raL.2) 1 raR.2
      mLowpass := rlR.2
      mDelay := Function.update (Function.update s.mDelay 0 rdL.2) 1 rdR.2 })

/-- All delay-line buffers of the engine hold only zeros (cursors
unconstrained). -/
def ZeroState (s : Reverb) : Prop :=
  (∀ i j, (s.mComb i).buf j = 0) ∧ (∀ ch j, (s.mAllpass ch).buf j = 0) ∧
    (∀ ch j, (s.mDelay ch).buf j = 0) ∧ (∀ ch, s.mLowpass.z1 ch = 0) ∧
    ∀ ch, s.mLowpass.z2 ch = 0

/-- All delay lines in their initial condition (zero buffer, cursor
rewound) and the damping-filter history zero. -/
def FreshState (s : Reverb) : Prop :=
  (∀ i, s.mComb i = zeroDelay) ∧ (∀ ch, s.mAllpass ch = zeroDelay) ∧
    (∀ ch, s.mDelay ch = zeroDelay) ∧ (∀ ch, s.mLowpass.z1 ch = 0) ∧
    ∀ ch, s.mLowpass.z2 ch = 0

/-- The two stereo channels of the engine are in identical states and
use identical spread-delay lengths. -/
def SymState (s : Reverb) : Prop :=
  s.mAllpass 0 = s.mAllpass 1 ∧ s.mDelay 0 = s.mDelay 1 ∧
    s.mLowpass.z1 0 = s.mLowpass.z1 1 ∧ s.mLowpass.z2 0 = s.mLowpass.z2 1 ∧
    s.mDelayVal 0 = s.mDelayVal 1

/-- The fields of the engine that no parameter setter may touch: the
nine delay lines (buffers and cursors), the damping filter, and the
fields no setter assigns. -/
def frameFields (s : Reverb) :=
  (s.mComb, s.mAllpass, s.mDelay, s.mLowpass, s.da, s.mSampleRate, s.mSample)

end Reverb

/-- The pure output of a plain delay read at a real-valued length. -/
def delayReadOut (dl : SimpleDelay) (len : ℝ) : ℝ := dl.readDelay (natTrunc len)

/-- The pure output of one comb filter of the engine fed `x`. -/
def combOutSpec (s : Reverb) (x : ℝ) (i : Fin 6) : ℝ :=
  x + s.mCombGain i * delayReadOut (s.mComb i) (s.mCombDelay i * s.mSampleRate)

/-- The pure output of the allpass stage. -/
def allpassOut (dl : SimpleDelay) (x len g : ℝ) : ℝ :=
  delayReadOut dl len - g * (x + g * delayReadOut dl len)

/-- The pure output of one damping-filter channel. -/
def lowpassOut (φ : NChannelFilter) (x : ℝ) (ch : Fin 2) : ℝ :=
  x * lpA0 φ.freq φ.sampleRate + φ.z1 ch

/-- A concrete engine state used to instantiate hypotheses: fresh
buffers, sample rate 100, the constructor's `da`. -/
def baseState : Reverb where
  d := 0.05
  g := 0.5
  m := 0
  f := 5500
  E := 0
  wetdry := 0
  rt := 0
  gainclean := 0
  gainscale := 0
  gain := 0
  wet := 0
  dry := 0
  da := 0.006 + MINDELAY
  mSampleRate := 100
  mSample := fun _ => 0
  mCombDelay := fun _ => 0
  mCombGain := fun _ => 0
  mDelayVal := fun _ => 0
  mComb := fun _ => zeroDelay
  mAllpass := fun _ => zeroDelay
  mDelay := fun _ => zeroDelay
  mLowpass := ⟨0, 100, fun _ => 0, fun _ => 0⟩

/-- `baseState` with a nonzero sample sitting in the first comb
filter's buffer: reverberant history that `resetBuffs` is documented to
clear. -/
def c1State : Reverb :=
  { baseState with mComb := Function.update baseState.mComb 0 ⟨fun _ => 1, 0⟩ }

/-- A delay line holding the sample 1 exactly five writes back
(cursor at 10, slot 5). -/
def c4Delay : SimpleDelay := ⟨fun i => if i = 5 then 1 else 0, 10⟩

/-- A concrete engine state distinguishing the fixed minimum delay from
the spread-delay length on the right channel: at rate 100 the minimum
delay is 1 sample and the right spread delay 5 samples, and the right
phase-compensation line holds 1 at 5 writes back but 0 at 1 write
back. -/
def c4State : Reverb :=
  { baseState with
    wet := 1
    gainclean := 1
    gainscale := 1
    mDelayVal := fun ch => if ch = 0 then 0.01 else 0.05
    mDelay := Function.update baseState.mDelay 1 c4Delay }

end

open Reverb

theorem prevPrime_le (n : ℕ) : prevPrime n ≤ n := by
  induction n with
  | zero => simp [prevPrime]
  | succ m ih =>
    by_cases h : Nat.Prime (m + 1)
    · simp [prevPrime, h]
    · simp only [prevPrime, h, if_false]
      exact ih.trans (Nat.le_succ m)

theorem prevPrime_le_succ (n : ℕ) : prevPrime n ≤ prevPrime (n + 1) := by
  by_cases h : Nat.Prime (n + 1)
  · simp only [prevPrime, h, if_true]
    exact (prevPrime_le n).trans (Nat.le_succ n)
  · simp [prevPrime, h]

theorem prevPrime_monotone : Monotone prevPrime :=
  monotone_nat_of_le_succ prevPrime_le_succ

theorem prevPrime_prime (n : ℕ) (h : 2 ≤ n) : Nat.Prime (prevPrime n) := by
  induction n with
  | zero => omega
  | succ m ih =>
    by_cases hp : Nat.Prime (m + 1)
    · simp [prevPrime, hp]
    · have hm : 2 ≤ m := by
        rcases Nat.lt_or_ge m 2 with hlt | hge
        · interval_cases m
          · omega
          · exact absurd Nat.prime_two hp
        · exact hge
      simpa [prevPrime, hp] using ih hm

theorem prevPrime_maximal (q n : ℕ) (hq : Nat.Prime q) (h : q ≤ n) :
    q ≤ prevPrime n := by
  induction n with
  | zero => have := hq.two_le; omega
  | succ m ih =>
    by_cases heq : q = m + 1
    · subst heq
      simp [prevPrime, hq]
    · have hqm : q ≤ m := by omega
      exact (ih hqm).trans (prevPrime_le_succ m)

/-- C5: `prevPrime` (the model of `largestPrimeNotExceeding`) returns a
prime that is at most its argument for every `N ≥ 2`, and it is
monotonically non-decreasing. -/
theorem prevPrime_prime_le_and_monotone :
    (∀ N : ℕ, 2 ≤ N → Nat.Prime (prevPrime N) ∧ prevPrime N ≤ N) ∧
      ∀ a b : ℕ, a ≤ b → prevPrime a ≤ prevPrime b :=
  ⟨fun N hN => ⟨prevPrime_prime N hN, prevPrime_le N⟩,
    fun _ _ hab => prevPrime_monotone hab⟩

/-- Witness for C5 at `N = 10` and `3 ≤ 7`. -/
theorem prevPrime_prime_le_and_monotone_witness :
    (2 ≤ 10 ∧ Nat.Prime (prevPrime 10) ∧ prevPrime 10 ≤ 10) ∧
      3 ≤ 7 ∧ prevPrime 3 ≤ prevPrime 7 :=
  ⟨⟨by norm_num, prevPrime_prime_le_and_monotone.1 10 (by norm_num)⟩,
    by norm_num, prevPrime_prime_le_and_monotone.2 3 7 (by norm_num)⟩

/-- C7: `set_g` stores the new gain factor and re-derives exactly what
`set_d` computes from the current `d` and the new `g`; in particular
the decay time reflects the new `g` immediately and every comb gain is
consistent with its comb delay and the decay time, so no stale derived
state is observable after the setter returns. -/
theorem set_g_rederives_set_d (s : Reverb) (gv : ℝ) :
    set_g s gv = set_d { s with g := gv } s.d ∧
      (set_g s gv).rt = s.d * Real.log 0.001 / Real.log gv ∧
      ∀ i, (set_g s gv).mCombGain i =
        Real.rpow 0.001 ((set_g s gv).mCombDelay i / (set_g s gv).rt) :=
  ⟨rfl, rfl, fun _ => rfl⟩

/-- C9: the parameter setters `set_d`, `set_g`, `set_m`, `set_E` and
`set_wetdry` leave every delay-line buffer and cursor, the damping
filter (coefficients and per-channel history), `da`, the sample rate
and `mSample` untouched, and each modifies nothing beyond its stored
parameter and the derived coefficient fields: all remaining fields are
unchanged. -/
theorem setters_preserve_buffers (s : Reverb) (v : ℝ) :
    (frameFields (set_d s v) = frameFields s ∧
      ((set_d s v).g, (set_d s v).m, (set_d s v).f, (set_d s v).E, (set_d s v).wetdry,
          (set_d s v).wet, (set_d s v).dry, (set_d s v).gain, (set_d s v).gainclean,
          (set_d s v).gainscale, (set_d s v).mDelayVal) =
        (s.g, s.m, s.f, s.E, s.wetdry, s.wet, s.dry, s.gain, s.gainclean, s.gainscale,
          s.mDelayVal)) ∧
    (frameFields (set_g s v) = frameFields s ∧
      ((set_g s v).d, (set_g s v).m, (set_g s v).f, (set_g s v).E, (set_g s v).wetdry,
          (set_g s v).wet, (set_g s v).dry, (set_g s v).gain, (set_g s v).gainclean,
          (set_g s v).gainscale, (set_g s v).mDelayVal) =
        (s.d, s.m, s.f, s.E, s.wetdry, s.wet, s.dry, s.gain, s.gainclean, s.gainscale,
          s.mDelayVal)) ∧
    (frameFields (set_m s v) = frameFields s ∧
      ((set_m s v).d, (set_m s v).g, (set_m s v).f, (set_m s v).E, (set_m s v).wetdry,
          (set_m s v).rt, (set_m s v).mCombDelay, (set_m s v).mCombGain, (set_m s v).wet,
          (set_m s v).dry, (set_m s v).gain, (set_m s v).gainclean, (set_m s v).gainscale) =
        (s.d, s.g, s.f, s.E, s.wetdry, s.rt, s.mCombDelay, s.mCombGain, s.wet, s.dry,
          s.gain, s.gainclean, s.gainscale)) ∧
    (frameFields (set_E s v) = frameFields s ∧
      ((set_E s v).d, (set_E s v).g, (set_E s v).m, (set_E s v).f, (set_E s v).wetdry,
          (set_E s v).rt, (set_E s v).mCombDelay, (set_E s v).mCombGain,
          (set_E s v).mDelayVal, (set_E s v).wet, (set_E s v).dry) =
        (s.d, s.g, s.m, s.f, s.wetdry, s.rt, s.mCombDelay, s.mCombGain, s.mDelayVal,
          s.wet, s.dry)) ∧
    (frameFields (set_wetdry s v) = frameFields s ∧
      ((set_wetdry s v).d, (set_wetdry s v).g, (set_wetdry s v).m, (set_wetdry s v).f,
          (set_wetdry s v).E, (set_wetdry s v).rt, (set_wetdry s v).mCombDelay,
          (set_wetdry s v).mCombGain, (set_wetdry s v).mDelayVal, (set_wetdry s v).gain,
          (set_wetdry s v).gainclean, (set_wetdry s v).gainscale) =
        (s.d, s.g, s.m, s.f, s.E, s.rt, s.mCombDelay, s.mCombGain, s.mDelayVal, s.gain,
          s.gainclean, s.gainscale)) :=
  ⟨⟨rfl, rfl⟩, ⟨rfl, rfl⟩, ⟨rfl, rfl⟩, ⟨rfl, rfl⟩, ⟨rfl, rfl⟩⟩

/-- C1 (code bug): after `setSampleRate` (and after `init`) the delay
lines still hold their previous contents — `resetBuffs` ranges over the
delay-line vectors by value, so it resets discarded copies.  Starting
from an engine whose first comb buffer holds the sample 1, the 1 is
still there after `setSampleRate 44100` and after `init`, whereas the
zeroing that `resetBuffs`'s own doc comment ("Zero out all delay/filter
buffers") and the spec describe would leave 0. -/
theorem setSampleRate_leaves_buffers_dirty :
    ((setSampleRate c1State 44100).mComb 0).buf 0 = 1 ∧
      ((Reverb.init c1State 0.05 0.5 0.005 5500 0.95 0.75 44100).mComb 0).buf 0 = 1 ∧
      ((resetBuffsIntended c1State).mComb 0).buf 0 = 0 := by
  refine ⟨?_, ?_, ?_⟩ <;> rfl

/-- C6: after `set_wetdry mix` the derived gains are the equal-power
crossfade `wet = cos((1-mix)*0.5*PI)`, `dry = cos(mix*0.5*PI)` (with
the engine's `PI` constant), and `wet^2 + dry^2` stays within `10^-12`
of 1 — for every `mix`, in particular on `[0,1]`; the deviation from 1
is only due to `PI` being a finite decimal approximation of `π`. -/
theorem set_wetdry_equal_power (s : Reverb) (w : ℝ) :
    (set_wetdry s w).wet = Real.cos ((1 - w) * 0.5 * PIc) ∧
      (set_wetdry s w).dry = Real.cos (w * 0.5 * PIc) ∧
      |(set_wetdry s w).wet ^ 2 + (set_wetdry s w).dry ^ 2 - 1| ≤ 1 / 10 ^ 12 := by
  refine ⟨rfl, rfl, ?_⟩
  show |Real.cos ((1 - w) * 0.5 * PIc) ^ 2 + Real.cos (w * 0.5 * PIc) ^ 2 - 1| ≤ 1 / 10 ^ 12
  set a := (1 - w) * 0.5 * PIc with ha
  set b := w * 0.5 * PIc with hb
  have hsum := Real.cos_add_cos (2 * a) (2 * b)
  have e1 : (2 * a + 2 * b) / 2 = a + b := by ring
  have e2 : (2 * a - 2 * b) / 2 = a - b := by ring
  rw [e1, e2] at hsum
  have hsum' : Real.cos (2 * a) + Real.cos (2 * b) =
      2 * (Real.cos (a + b) * Real.cos (a - b)) := by rw [hsum]; ring
  have key : Real.cos a ^ 2 + Real.cos b ^ 2 - 1 =
      Real.cos (a + b) * Real.cos (a - b) := by
    have c1 := Real.cos_sq a
    have c2 := Real.cos_sq b
    linarith [c1, c2, hsum']
  have hab : a + b = 0.5 * PIc := by rw [ha, hb]; ring
  have habs : |Real.cos a ^ 2 + Real.cos b ^ 2 - 1| ≤ |Real.cos (0.5 * PIc)| := by
    rw [key, hab, abs_mul]
    exact mul_le_of_le_one_right (abs_nonneg _) (Real.abs_cos_le_one _)
  have hrw : (0.5 * PIc : ℝ) = Real.pi / 2 - (Real.pi / 2 - 0.5 * PIc) := by ring
  rw [hrw, Real.cos_pi_div_two_sub] at habs
  have hsin : |Real.sin (Real.pi / 2 - 0.5 * PIc)| ≤ |Real.pi / 2 - 0.5 * PIc| :=
    Real.abs_sin_le_abs
  have hPIc : PIc = 3.1415926535897 := rfl
  have hpi1 := Real.pi_gt_d20
  have hpi2 := Real.pi_lt_d20
  have hsmall : |Real.pi / 2 - 0.5 * PIc| ≤ 1 / 10 ^ 12 := by
    rw [hPIc, abs_le]
    constructor
    · norm_num
      linarith [hpi1]
    · norm_num
      linarith [hpi2]
  linarith [habs, hsin, hsmall]

theorem natTrunc_le_self (x : ℝ) (hx : 0 ≤ x) : (natTrunc x : ℝ) ≤ x := by
  have h : ((natTrunc x : ℕ) : ℤ) = ⌊x⌋ :=
    Int.toNat_of_nonneg (Int.le_floor.mpr (by exact_mod_cast hx))
  calc ((natTrunc x : ℕ) : ℝ) = ((⌊x⌋ : ℤ) : ℝ) := by exact_mod_cast h
    _ ≤ x := Int.floor_le x

theorem le_natTrunc_of_le (x : ℝ) (q : ℕ) (hq : (q : ℝ) ≤ x) : q ≤ natTrunc x := by
  have h : (q : ℤ) ≤ ⌊x⌋ := Int.le_floor.mpr (by exact_mod_cast hq)
  unfold natTrunc
  omega

/-- C3: after `set_d d`, the decay time is `d * ln(0.001) / ln(g)` with
the current `g`, the `i`-th comb delay length is the largest prime
number of samples not exceeding `d*(15-i)/15 * sampleRate`, converted
back to seconds, and the `i`-th comb gain is `0.001 ^ (delay/rt)`. -/
theorem set_d_derived_state (s : Reverb) (dv : ℝ) (i : Fin 6)
    (hx : 2 ≤ dv * ((15 - (i : ℕ) : ℕ) : ℝ) / 15 * s.mSampleRate) :
    (set_d s dv).rt = dv * Real.log 0.001 / Real.log s.g ∧
      ∃ p : ℕ, Nat.Prime p ∧
        (p : ℝ) ≤ dv * ((15 - (i : ℕ) : ℕ) : ℝ) / 15 * s.mSampleRate ∧
        (∀ q : ℕ, Nat.Prime q →
          (q : ℝ) ≤ dv * ((15 - (i : ℕ) : ℕ) : ℝ) / 15 * s.mSampleRate → q ≤ p) ∧
        (set_d s dv).mCombDelay i = (p : ℝ) / s.mSampleRate ∧
        (set_d s dv).mCombGain i =
          Real.rpow 0.001 ((set_d s dv).mCombDelay i / (set_d s dv).rt) := by
  set x := dv * ((15 - (i : ℕ) : ℕ) : ℝ) / 15 * s.mSampleRate with hxdef
  have hx0 : (0 : ℝ) ≤ x := by linarith
  have hn2 : 2 ≤ natTrunc x := le_natTrunc_of_le x 2 (by exact_mod_cast hx)
  refine ⟨rfl, prevPrime (natTrunc x), prevPrime_prime _ hn2, ?_, ?_, rfl, rfl⟩
  · calc ((prevPrime (natTrunc x) : ℕ) : ℝ) ≤ (natTrunc x : ℝ) := by
          exact_mod_cast prevPrime_le (natTrunc x)
      _ ≤ x := natTrunc_le_self x hx0
  · intro q hq hqx
    exact prevPrime_maximal q (natTrunc x) hq (le_natTrunc_of_le x q hqx)

/-- Witness for C3 at `baseState` (rate 100), `d = 3`, comb `i = 0`:
the bound `d*(15-0)/15*rate = 300` is at least 2, and the derived
state obeys the claim there. -/
theorem set_d_derived_state_witness :
    (2 : ℝ) ≤ 3 * ((15 - ((0 : Fin 6) : ℕ) : ℕ) : ℝ) / 15 * baseState.mSampleRate ∧
      ((set_d baseState 3).rt = 3 * Real.log 0.001 / Real.log baseState.g ∧
        ∃ p : ℕ, Nat.Prime p ∧
          (p : ℝ) ≤ 3 * ((15 - ((0 : Fin 6) : ℕ) : ℕ) : ℝ) / 15 * baseState.mSampleRate ∧
          (∀ q : ℕ, Nat.Prime q →
            (q : ℝ) ≤ 3 * ((15 - ((0 : Fin 6) : ℕ) : ℕ) : ℝ) / 15 * baseState.mSampleRate →
            q ≤ p) ∧
          (set_d baseState 3).mCombDelay 0 = (p : ℝ) / baseState.mSampleRate ∧
          (set_d baseState 3).mCombGain 0 =
            Real.rpow 0.001
              ((set_d baseState 3).mCombDelay 0 / (set_d baseState 3).rt)) :=
  ⟨by norm_num [baseState], set_d_derived_state baseState 3 0 (by norm_num [baseState])⟩

theorem processCombs_fst (s : Reverb) (x : ℝ) :
    (processCombs s x).1 = ∑ i : Fin 6, combOutSpec s x i := by
  simp only [processCombs, combStep, SimpleDelay.process_comb, combOutSpec, delayReadOut,
    Fin.sum_univ_six]
  simp +decide [Function.update]

/-- C2: for every input sample `x`, `processMono` outputs
`(clean + reverb) * 0.5 * gainscale + x * dry`, where the reverb path
feeds `x * wet` identically to all six comb filters, sums their
outputs, passes the sum through the first allpass line at the fixed
allpass gain and damping-filter channel 0 and scales by `gain`, and
the clean path is `wet * mDelay[0].readDelay(MINDELAY) * gainclean`. -/
theorem processMonoSample_formula (s : Reverb) (x : ℝ) :
    (processMonoSample s x).1 =
      (s.wet * delayReadOut (s.mDelay 0) (MINDELAY * s.mSampleRate) * s.gainclean
          + lowpassOut s.mLowpass
              (allpassOut (s.mAllpass 0) (∑ i : Fin 6, combOutSpec s (x * s.wet) i)
                (s.mDelayVal 0 * s.mSampleRate) ALLPASSGAIN) 0 * s.gain)
        * 0.5 * s.gainscale + x * s.dry := by
  have hc := processCombs_fst s (x * s.wet)
  simp only [processMonoSample, JUCE_UNDENORMALISE, SimpleDelay.process,
    SimpleDelay.process_allpass_comb, NChannelFilter.processSample, allpassOut, lowpassOut,
    delayReadOut, hc]

theorem processMonoBlock_nil (s : Reverb) : processMonoBlock s [] = ([], s) := rfl

theorem processMonoBlock_cons (s : Reverb) (x : ℝ) (xs : List ℝ) :
    processMonoBlock s (x :: xs) =
      ((processMonoSample s x).1 :: (processMonoBlock (processMonoSample s x).2 xs).1,
        (processMonoBlock (processMonoSample s x).2 xs).2) := rfl

theorem write_buf_zero {dl : SimpleDelay} {v : ℝ} (h : ∀ j, dl.buf j = 0) (hv : v = 0)
    (j : ℕ) : (dl.write v).buf j = 0 := by
  subst hv
  simp only [SimpleDelay.write]
  split <;> simp [h]

theorem update_buf_zero {α : Type} [DecidableEq α] {f : α → SimpleDelay} {i : α}
    {dl : SimpleDelay} (hf : ∀ a j, (f a).buf j = 0) (hdl : ∀ j, dl.buf j = 0) (a : α)
    (j : ℕ) : ((Function.update f i dl) a).buf j = 0 := by
  by_cases h : a = i
  · subst h
    rw [Function.update_same]
    exact hdl j
  · rw [Function.update_noteq h]
    exact hf a j

theorem update_val_zero {α : Type} [DecidableEq α] {f : α → ℝ} {i : α} {v : ℝ}
    (hf : ∀ a, f a = 0) (hv : v = 0) (a : α) : (Function.update f i v) a = 0 := by
  by_cases h : a = i
  · subst h
    rw [Function.update_same]
    exact hv
  · rw [Function.update_noteq h]
    exact hf a

theorem combStep_zero (s : Reverb) (i : Fin 6) (h : ZeroState s) :
    (combStep s 0 i).1 = 0 ∧ ZeroState (combStep s 0 i).2 := by
  obtain ⟨hcomb, hap, hdel, hz1, hz2⟩ := h
  have hout : (combStep s 0 i).1 = 0 := by
    simp [combStep, SimpleDelay.process_comb, SimpleDelay.readDelay, hcomb]
  refine ⟨hout, ?_, hap, hdel, hz1, hz2⟩
  intro j k
  simp only [combStep, SimpleDelay.process_comb]
  exact update_buf_zero hcomb
    (write_buf_zero (hcomb i) (by simp [SimpleDelay.readDelay, hcomb])) j k

theorem processCombs_zero (s : Reverb) (h : ZeroState s) :
    (processCombs s 0).1 = 0 ∧ ZeroState (processCombs s 0).2 := by
  obtain ⟨h0, hs0⟩ := combStep_zero s 0 h
  obtain ⟨h1, hs1⟩ := combStep_zero _ 1 hs0
  obtain ⟨h2, hs2⟩ := combStep_zero _ 2 hs1
  obtain ⟨h3, hs3⟩ := combStep_zero _ 3 hs2
  obtain ⟨h4, hs4⟩ := combStep_zero _ 4 hs3
  obtain ⟨h5, hs5⟩ := combStep_zero _ 5 hs4
  constructor
  · show (combStep s 0 0).1 + _ + _ + _ + _ + _ = 0
    rw [h0, h1, h2, h3, h4, h5]
    norm_num
  · exact hs5

theorem processMonoSample_zero (s : Reverb) (h : ZeroState s) :
    (processMonoSample s 0).1 = 0 ∧ ZeroState (processMonoSample s 0).2 := by
  have hz : (0 : ℝ) * s.wet = 0 := zero_mul _
  obtain ⟨hcombs1, hcombs2⟩ := processCombs_zero s h
  obtain ⟨hcomb, hap, hdel, hz1, hz2⟩ := h
  obtain ⟨hcomb', hap', hdel', hz1', hz2'⟩ := hcombs2
  constructor
  · simp only [processMonoSample, JUCE_UNDENORMALISE, hz, hcombs1, SimpleDelay.process,
      SimpleDelay.process_allpass_comb, SimpleDelay.readDelay, NChannelFilter.processSample,
      hap, hdel]
    simp [hz1]
  · refine ⟨?_, ?_, ?_, ?_, ?_⟩
    · intro i j
      simp only [processMonoSample, hz]
      exact hcomb' i j
    · intro ch j
      simp only [processMonoSample, hz, hcombs1, SimpleDelay.process_allpass_comb]
      exact update_buf_zero hap
        (write_buf_zero (hap 0) (by simp [SimpleDelay.readDelay, hap])) ch j
    · intro ch j
      simp only [processMonoSample, SimpleDelay.process]
      exact update_buf_zero hdel (write_buf_zero (hdel 0) rfl) ch j
    · intro ch
      simp only [processMonoSample, hz, hcombs1, SimpleDelay.process_allpass_comb,
        NChannelFilter.processSample]
      exact update_val_zero hz1
        (by simp [SimpleDelay.readDelay, hap, hz1, hz2]) ch
    · intro ch
      simp only [processMonoSample, hz, hcombs1, SimpleDelay.process_allpass_comb,
        NChannelFilter.processSample]
      exact update_val_zero hz2
        (by simp [SimpleDelay.readDelay, hap, hz1, hz2]) ch

set_option maxHeartbeats 1600000 in
/-- C8: for any parameter setting (all gain and coefficient fields
arbitrary), processing an all-zero buffer of any length through
`processMono` from an engine whose delay-line buffers and filter
history are zero yields an all-zero buffer, and the buffers stay zero
afterwards: no self-oscillation from zero input. -/
theorem processMonoBlock_silence (s : Reverb) (xs : List ℝ) (h : ZeroState s)
    (hxs : ∀ x ∈ xs, x = 0) :
    (processMonoBlock s xs).1 = xs.map (fun _ => 0) ∧
      ZeroState (processMonoBlock s xs).2 := by
  induction xs generalizing s with
  | nil => simpa [processMonoBlock_nil] using h
  | cons x tl ih =>
    have hx : x = 0 := hxs x (by simp)
    subst hx
    obtain ⟨h1, h2⟩ := processMonoSample_zero s h
    have htl : ∀ y ∈ tl, y = 0 := fun y hy => hxs y (List.mem_cons_of_mem _ hy)
    obtain ⟨ih1, ih2⟩ := ih _ h2 htl
    rw [processMonoBlock_cons]
    refine ⟨?_, ih2⟩
    rw [h1, ih1]
    simp

/-- Witness for C8: from `baseState` (zero buffers), the block
`[0, 0, 0]` maps to `[0, 0, 0]`. -/
theorem processMonoBlock_silence_witness :
    (ZeroState baseState ∧ ∀ x ∈ ([0, 0, 0] : List ℝ), x = 0) ∧
      (processMonoBlock baseState [0, 0, 0]).1 = ([0, 0, 0] : List ℝ).map (fun _ => 0) ∧
      ZeroState (processMonoBlock baseState [0, 0, 0]).2 := by
  have hz : ZeroState baseState := by
    refine ⟨?_, ?_, ?_, ?_, ?_⟩ <;> intro ch <;> simp [baseState, zeroDelay, ZeroState]
  have hxs : ∀ x ∈ ([0, 0, 0] : List ℝ), x = 0 := by simp
  exact ⟨⟨hz, hxs⟩, processMonoBlock_silence baseState [0, 0, 0] hz hxs⟩

/-- C4 (amended): in `processStereo` the two input samples are summed,
halved and scaled by `wet` before feeding the single shared comb
network; the allpass filter and the damping-filter channel are applied
separately per channel — the allpass with that channel's own
spread-delay length `mDelayVal[ch]` — and the phase-compensation delay
line is applied separately per channel but with the fixed minimum
delay `MINDELAY` on both channels (not the spread-delay length). -/
theorem processStereoSample_per_channel (s : Reverb) (xL xR : ℝ) :
    (processStereoSample s xL xR).1.1 =
      (s.wet * delayReadOut (s.mDelay 0) (MINDELAY * s.mSampleRate) * s.gainclean
          + lowpassOut s.mLowpass
              (allpassOut (s.mAllpass 0)
                (∑ i : Fin 6, combOutSpec s ((xL + xR) * 0.5 * s.wet) i)
                (s.mDelayVal 0 * s.mSampleRate) ALLPASSGAIN) 0 * s.gain)
        * 0.5 * s.gainscale + xL * s.dry ∧
    (processStereoSample s xL xR).1.2 =
      (s.wet * delayReadOut (s.mDelay 1) (MINDELAY * s.mSampleRate) * s.gainclean
          + lowpassOut s.mLowpass
              (allpassOut (s.mAllpass 1)
                (∑ i : Fin 6, combOutSpec s ((xL + xR) * 0.5 * s.wet) i)
                (s.mDelayVal 1 * s.mSampleRate) ALLPASSGAIN) 1 * s.gain)
        * 0.5 * s.gainscale + xR * s.dry := by
  have hc := processCombs_fst s ((xL + xR) * 0.5 * s.wet)
  constructor <;>
    simp +decide [processStereoSample, JUCE_UNDENORMALISE, SimpleDelay.process,
      SimpleDelay.process_allpass_comb, NChannelFilter.processSample, allpassOut, lowpassOut,
      delayReadOut, hc, Function.update]

/-- C4 (counterexample to the claim as stated): at `c4State` with both
inputs 0, the engine's right output is 0 — the phase-compensation line
is read at the fixed minimum delay (1 sample at rate 100), where the
buffer holds 0 — whereas the claim's per-channel-spread-delay reading
(`processStereoSampleSpreadComp`, 5 samples, where the buffer holds 1)
yields 0.5. -/
theorem processStereoSample_spread_comp_counterexample :
    (processStereoSample c4State 0 0).1.2 = 0 ∧
      (processStereoSampleSpreadComp c4State 0 0).1.2 = 0.5 ∧
      (processStereoSample c4State 0 0).1.2 ≠
        (processStereoSampleSpreadComp c4State 0 0).1.2 := by
  have he1 : ((0.01 : ℝ) * 100) = ((1 : ℤ) : ℝ) := by norm_num
  have he5 : ((0.05 : ℝ) * 100) = ((5 : ℤ) : ℝ) := by norm_num
  have ht1 : natTrunc ((0.01 : ℝ) * 100) = 1 := by
    rw [natTrunc, he1, Int.floor_intCast]
    rfl
  have ht5 : natTrunc ((0.05 : ℝ) * 100) = 5 := by
    rw [natTrunc, he5, Int.floor_intCast]
    rfl
  have h1 : (processStereoSample c4State 0 0).1.2 = 0 := by
    simp +decide [processStereoSample, processCombs, combStep, c4State, baseState, c4Delay,
      zeroDelay, SimpleDelay.process, SimpleDelay.process_comb, SimpleDelay.process_allpass_comb,
      SimpleDelay.readDelay, SimpleDelay.write, NChannelFilter.processSample,
      JUCE_UNDENORMALISE, Function.update, MINDELAY, ALLPASSGAIN, CAP, ht1, ht5]
  have h2 : (processStereoSampleSpreadComp c4State 0 0).1.2 = 0.5 := by
    simp +decide [processStereoSampleSpreadComp, processCombs, combStep, c4State, baseState,
      c4Delay, zeroDelay, SimpleDelay.process, SimpleDelay.process_comb,
      SimpleDelay.process_allpass_comb, SimpleDelay.readDelay, SimpleDelay.write,
      NChannelFilter.processSample, JUCE_UNDENORMALISE, Function.update, MINDELAY, ALLPASSGAIN,
      CAP, ht1, ht5]
  refine ⟨h1, h2, ?_⟩
  rw [h1, h2]
  norm_num

theorem processStereoBlock_nil (s : Reverb) : processStereoBlock s [] [] = (([], []), s) :=
  rfl

theorem processStereoBlock_cons (s : Reverb) (x y : ℝ) (xs ys : List ℝ) :
    processStereoBlock s (x :: xs) (y :: ys) =
      (((processStereoSample s x y).1.1 ::
          (processStereoBlock (processStereoSample s x y).2 xs ys).1.1,
        (processStereoSample s x y).1.2 ::
          (processStereoBlock (processStereoSample s x y).2 xs ys).1.2),
        (processStereoBlock (processStereoSample s x y).2 xs ys).2) := rfl

set_option maxHeartbeats 2000000 in
theorem processCombs_mDelayVal (s : Reverb) (x : ℝ) :
    (processCombs s x).2.mDelayVal = s.mDelayVal := by
  simp only [processCombs, combStep]

set_option maxHeartbeats 2000000 in
theorem processStereoSample_sym (s : Reverb) (h : SymState s) (x : ℝ) :
    (processStereoSample s x x).1.1 = (processStereoSample s x x).1.2 ∧
      SymState (processStereoSample s x x).2 := by
  obtain ⟨hap, hdel, hz1, hz2, hdv⟩ := h
  constructor
  · simp +decide only [processStereoSample, JUCE_UNDENORMALISE, SimpleDelay.process,
      SimpleDelay.process_allpass_comb, NChannelFilter.processSample, Function.update,
      dite_false, dite_true]
    rw [← hap, ← hdel, ← hz1, ← hdv]
  · refine ⟨?_, ?_, ?_, ?_, ?_⟩ <;>
      simp +decide only [processStereoSample, JUCE_UNDENORMALISE, SimpleDelay.process,
        SimpleDelay.process_allpass_comb, NChannelFilter.processSample, Function.update,
        dite_false, dite_true] <;>
      simp only [processCombs_mDelayVal, ← hap, ← hdel, ← hz1, ← hz2, ← hdv]

/-- C10: from an engine whose delay lines and damping-filter history
are all zero, setting the spread parameter `m` to 0 (which makes both
spread-delay lengths equal), `processStereo` applied to two identical
input buffers produces identical left and right output buffers. -/
theorem processStereoBlock_identical_channels (s : Reverb) (xs : List ℝ)
    (h : FreshState s) :
    (processStereoBlock (set_m s 0) xs xs).1.1 =
      (processStereoBlock (set_m s 0) xs xs).1.2 := by
  obtain ⟨hcomb, hap, hdel, hz1, hz2⟩ := h
  have hsym : SymState (set_m s 0) := by
    refine ⟨?_, ?_, ?_, ?_, ?_⟩
    · show s.mAllpass 0 = s.mAllpass 1
      rw [hap 0, hap 1]
    · show s.mDelay 0 = s.mDelay 1
      rw [hdel 0, hdel 1]
    · show s.mLowpass.z1 0 = s.mLowpass.z1 1
      rw [hz1 0, hz1 1]
    · show s.mLowpass.z2 0 = s.mLowpass.z2 1
      rw [hz2 0, hz2 1]
    · show (set_m s 0).mDelayVal 0 = (set_m s 0).mDelayVal 1
      simp +decide [set_m]
  have H : ∀ (ys : List ℝ) (t : Reverb), SymState t →
      (processStereoBlock t ys ys).1.1 = (processStereoBlock t ys ys).1.2 := by
    intro ys
    induction ys with
    | nil => intro t _; rfl
    | cons y tl ih =>
      intro t ht
      obtain ⟨ho, hs⟩ := processStereoSample_sym t ht y
      rw [processStereoBlock_cons, ho, ih _ hs]
  exact H xs _ hsym

/-- Witness for C10: `baseState` is fresh, and on the one-sample block
`[1]` fed to both channels the two outputs agree. -/
theorem processStereoBlock_identical_channels_witness :
    FreshState baseState ∧
      (processStereoBlock (set_m baseState 0) [1] [1]).1.1 =
        (processStereoBlock (set_m baseState 0) [1] [1]).1.2 := by
  have hfresh : FreshState baseState :=
    ⟨fun _ => rfl, fun _ => rfl, fun _ => rfl, fun _ => rfl, fun _ => rfl⟩
  exact ⟨hfresh, processStereoBlock_identical_channels baseState [1] hfresh⟩

end Audealize
